import Mathlib

/-!
Verification of the user-service identity core
(`src/services/user-service/app.py`) against its specification.

Shallow embedding notes:
* The password digest `hash_pw` calls `hashlib.sha256(...).hexdigest()`, an
  external primitive; every theorem is parametrized over an arbitrary
  function `hash_pw : String → String`, so each result holds for SHA-256 in
  particular.  The service logic never inspects digests except by equality.
* The token signer `itsdangerous.URLSafeSerializer(SECRET, salt="user-auth")`
  is an external library.  Its observable structure is modelled faithfully:
  `dumps({"u": username})` serializes the payload and appends a keyed
  integrity tag after a `"."` separator; `loads` splits at the last `"."`,
  recomputes the tag over the payload with the same process-wide secret,
  and parses the payload on a match, failing otherwise.  The keyed tag is an
  abstract parameter `mac : List Char → String`; in the library the tag is
  base64url-encoded and hence never contains `'.'`, which appears below as
  an explicit hypothesis where the split must find the separator.
* Python dict / global state (`USERS`, `NEXT_ID`) becomes an explicit
  `ServerState` threaded through the handlers.
* Python `str.strip()` is modelled by `pyStrip` on the underlying character
  list (drop whitespace from both ends).
-/

namespace UserService

/-- Whitespace set of Python `str.strip()` (space, tab, newline, return,
vertical tab, form feed). -/
def pyIsSpace (c : Char) : Bool :=
  c = ' ' || c = '\t' || c = '\n' || c = '\r' || c = '\x0b' || c = '\x0c'

/-- Drop leading and trailing whitespace from a character list. -/
def stripChars (l : List Char) : List Char :=
  ((l.dropWhile pyIsSpace).reverse.dropWhile pyIsSpace).reverse

/-- Model of Python `s.strip()`. -/
def pyStrip (s : String) : String :=
  String.mk (stripChars s.toList)

/-- One identity record, as built by `register` (`app.py` lines 46-52). -/
structure UserRec where
  id : String
  username : String
  name : String
  email : String
  password_hash : String
deriving Repr, DecidableEq

/-- The key/value pairs of the record dict, in Python insertion order
(`user.items()`). -/
def userItems (u : UserRec) : List (String × String) :=
  [("id", u.id), ("username", u.username), ("name", u.name),
   ("email", u.email), ("password_hash", u.password_hash)]

/-- The dict comprehension `{k:v for k,v in user.items() if k != "password_hash"}`
used by `register` (line 55) and `profile` (line 79). -/
def publicOf (u : UserRec) : List (String × String) :=
  (userItems u).filter (fun kv => kv.1 != "password_hash")

/-- The module-level mutable state: `USERS` (username → record, modelled as
an association list, newest first) and `NEXT_ID`. -/
structure ServerState where
  users : List (String × UserRec)
  next_id : Nat
deriving Repr, DecidableEq

/-- The state at process start: `USERS = {}`, `NEXT_ID = 1`. -/
def initState : ServerState := ⟨[], 1⟩

/-- Dictionary lookup `USERS.get(username)`. -/
def lookupU (k : String) : List (String × UserRec) → Option UserRec
  | [] => none
  | kv :: rest => if kv.1 = k then some kv.2 else lookupU k rest

/-- An HTTP response of the service: status code and JSON-object body as
key/value pairs. -/
structure Response where
  status : Nat
  body : List (String × String)
deriving Repr, DecidableEq

/-! ### Token codec (`make_token` / `parse_token`, app.py lines 18-26) -/

/-- JSON escaping of one character inside a string literal (the payload
serializer writes the username into `{"u": ...}`). -/
def jsonEscapeChar (c : Char) : List Char :=
  if c = '"' then ['\\', '"']
  else if c = '\\' then ['\\', '\\']
  else [c]

/-- JSON escaping of a whole string body. -/
def jsonEscape : List Char → List Char
  | [] => []
  | c :: rest => jsonEscapeChar c ++ jsonEscape rest

/-- Parse a JSON string body up to its closing unescaped quote; returns the
unescaped content and the remainder after the quote. -/
def parseJsonString : List Char → Option (List Char × List Char)
  | [] => none
  | ['\\'] => none
  | '\\' :: d :: rest =>
    if d = '"' ∨ d = '\\' then
      (parseJsonString rest).map (fun p => (d :: p.1, p.2))
    else none
  | c :: rest =>
    if c = '"' then some ([], rest)
    else (parseJsonString rest).map (fun p => (c :: p.1, p.2))

/-- Drop an expected literal from the front of a list, or fail. -/
def dropLit : List Char → List Char → Option (List Char)
  | [], l => some l
  | _ :: _, [] => none
  | p :: ps, c :: cs => if c = p then dropLit ps cs else none

/-- Serialization of the payload `{"u": username}` (what
`signer.dumps` signs). -/
def payloadEncode (u : String) : List Char :=
  "\x7b\"u\": \"".toList ++ jsonEscape u.toList ++ "\"\x7d".toList

/-- Parse a serialized payload back; yields the `"u"` field, failing on any
shape mismatch (models JSON parsing plus `data.get("u")`). -/
def payloadDecode (l : List Char) : Option String :=
  (dropLit "\x7b\"u\": \"".toList l).bind fun rest =>
    (parseJsonString rest).bind fun p =>
      if p.2 = "\x7d".toList then some (String.mk p.1) else none

/-- Split a token at its last `'.'` into (payload, tag); `none` when no
separator exists (the library then raises `BadSignature`, caught by
`parse_token`). -/
def splitLastDot : List Char → Option (List Char × List Char)
  | [] => none
  | c :: rest =>
    match splitLastDot rest with
    | some p => some (c :: p.1, p.2)
    | none => if c = '.' then some ([], rest) else none

/-- Model of `make_token(username)`, i.e. `signer.dumps({"u": username})` — serialized
payload, `"."`, keyed integrity tag over the payload. -/
def make_token (mac : List Char → String) (username : String) : String :=
  String.mk (payloadEncode username) ++ "." ++ mac (payloadEncode username)

/-- Model of `parse_token(token)`: verify the tag recomputed with the same secret;
on success return the `"u"` field; every failure (no separator, tag
mismatch, malformed payload, missing field) is caught and yields `none`
(Python `except Exception: return None`). -/
def parse_token (mac : List Char → String) (token : String) : Option String :=
  match splitLastDot token.toList with
  | none => none
  | some (payload, tag) =>
    if tag = (mac payload).toList then payloadDecode payload else none

/-! ### HTTP handlers (`register`, `login`, `profile`) -/

/-- Request body of `POST /register`; `request.get_json(...) or {}` together
with `payload.get(field, "")` makes every field default to `""`, so the
payload is a total record of strings. -/
structure RegisterPayload where
  username : String
  password : String
  name : String
  email : String
deriving Repr, DecidableEq

/-- Request body of `POST /login`, with the same defaulting. -/
structure LoginPayload where
  username : String
  password : String
deriving Repr, DecidableEq

/-- Handler of `POST /register` (app.py lines 32-56).  Note the source strips
`username`, `name`, `email` but NOT `password`; the emptiness test
`not username or not password` therefore sees the raw password. -/
def register (hash_pw : String → String) (p : RegisterPayload)
    (s : ServerState) : Response × ServerState :=
  let username := pyStrip p.username
  let password := p.password
  if username = "" ∨ password = "" then
    (⟨400, [("error", "username and password required")]⟩, s)
  else if (lookupU username s.users).isSome then
    (⟨409, [("error", "username already exists")]⟩, s)
  else
    let user : UserRec :=
      ⟨toString s.next_id, username, pyStrip p.name, pyStrip p.email,
       hash_pw password⟩
    (⟨201, publicOf user⟩, ⟨(username, user) :: s.users, s.next_id + 1⟩)

/-- Handler of `POST /login` (app.py lines 58-67).  `if not user or
user["password_hash"] != hash_pw(password)` merges the two failure causes
into one response; no global state is touched. -/
def login (hash_pw : String → String) (mac : List Char → String)
    (p : LoginPayload) (s : ServerState) : Response :=
  let username := pyStrip p.username
  match lookupU username s.users with
  | none => ⟨401, [("error", "invalid credentials")]⟩
  | some user =>
    if user.password_hash ≠ hash_pw p.password then
      ⟨401, [("error", "invalid credentials")]⟩
    else
      ⟨200, [("token", make_token mac username)]⟩

/-- Check `auth.lower().startswith("bearer ")` (ASCII lowering suffices for
the scheme token). -/
def bearerOk (auth : String) : Bool :=
  "bearer ".toList.isPrefixOf (auth.toList.map Char.toLower)

/-- The characters after the first `' '`: `auth.split(" ", 1)[1]`.  The
`bearerOk` guard guarantees a space exists; the `[]` default is
unreachable under that guard. -/
def afterFirstSpace : List Char → List Char
  | [] => []
  | c :: rest => if c = ' ' then rest else afterFirstSpace rest

/-- Handler of `GET /profile` (app.py lines 69-80).  `if not username or username not
in USERS` makes an empty decoded subject and an orphaned subject share the
tampered-token response. -/
def profile (mac : List Char → String) (s : ServerState)
    (auth : String) : Response :=
  if bearerOk auth then
    let token := String.mk (stripChars (afterFirstSpace auth.toList))
    match parse_token mac token with
    | none => ⟨401, [("error", "invalid token")]⟩
    | some username =>
      if username = "" then ⟨401, [("error", "invalid token")]⟩
      else
        match lookupU username s.users with
        | none => ⟨401, [("error", "invalid token")]⟩
        | some user => ⟨200, publicOf user⟩
  else ⟨401, [("error", "missing bearer token")]⟩

/-! ### Traces of requests -/

/-- One incoming request. -/
inductive Op where
  | reg : RegisterPayload → Op
  | log : LoginPayload → Op
  | prof : String → Op
deriving Repr, DecidableEq

/-- Serve one request: the resulting state and the response.  Only
`register` can mutate the state. -/
def step (hash_pw : String → String) (mac : List Char → String)
    (s : ServerState) : Op → ServerState × Response
  | .reg p => let r := register hash_pw p s; (r.2, r.1)
  | .log p => (s, login hash_pw mac p s)
  | .prof a => (s, profile mac s a)

/-- Serve a list of requests from a state, collecting the responses. -/
def runFrom (hash_pw : String → String) (mac : List Char → String)
    (s : ServerState) : List Op → ServerState × List Response
  | [] => (s, [])
  | op :: ops =>
    let r := step hash_pw mac s op
    let rest := runFrom hash_pw mac r.1 ops
    (rest.1, r.2 :: rest.2)

/-- Serve a list of requests from process start. -/
def run (hash_pw : String → String) (mac : List Char → String)
    (ops : List Op) : ServerState × List Response :=
  runFrom hash_pw mac initState ops

/-- Number of successful creations (`201` responses) in a response list. -/
def countCreated (rs : List Response) : Nat :=
  (rs.filter (fun r => r.status = 201)).length

/-! ### Concrete stand-ins for the external primitives, used to instantiate
closed statements.  The service logic never inspects digests or tags except
by equality, so every theorem below is quantified over arbitrary `hash_pw`
and `mac`; these stand-ins pick one instance. -/

/-- A concrete stand-in for the external SHA-256 hex digest. -/
def hashStandin : String → String := fun p => "sha256:" ++ p

/-- A concrete stand-in integrity tag; like the base64url tags of the
library, its output never contains `'.'`. -/
def standMac : List Char → String := fun _ => "SIG"

/-! ### Helper lemmas about stripping -/

theorem stripChars_cons_space (c : Char) (l : List Char)
    (h : pyIsSpace c = true) : stripChars (c :: l) = stripChars l := by
  simp [stripChars, List.dropWhile_cons, h]

theorem stripChars_append_space (l : List Char) (c : Char)
    (h : pyIsSpace c = true) : stripChars (l ++ [c]) = stripChars l := by
  induction l with
  | nil => simp [stripChars, List.dropWhile, h]
  | cons a l ih =>
    by_cases ha : pyIsSpace a = true
    · rw [List.cons_append, stripChars_cons_space a _ ha,
        stripChars_cons_space a l ha]
      exact ih
    · simp only [stripChars, List.cons_append, List.dropWhile_cons, ha,
        Bool.false_eq_true, if_false]
      rw [show (a :: (l ++ [c])).reverse = c :: (a :: l).reverse by simp,
        List.dropWhile_cons]
      simp [h]

/-! ### Helper lemmas about the token codec -/

theorem dropLit_append (p r : List Char) : dropLit p (p ++ r) = some r := by
  induction p with
  | nil => rfl
  | cons c p ih => simp [dropLit, ih]

theorem parseJsonString_escape (cs rest : List Char) :
    parseJsonString (jsonEscape cs ++ '"' :: rest) = some (cs, rest) := by
  induction cs with
  | nil => simp [jsonEscape, parseJsonString]
  | cons c cs ih =>
    by_cases h1 : c = '"'
    · subst h1
      simp [jsonEscape, jsonEscapeChar, parseJsonString, ih]
    · by_cases h2 : c = '\\'
      · subst h2
        simp [jsonEscape, jsonEscapeChar, parseJsonString, ih]
      · simp [jsonEscape, jsonEscapeChar, parseJsonString, h1, h2, ih]

theorem payloadDecode_encode (u : String) :
    payloadDecode (payloadEncode u) = some u := by
  unfold payloadDecode payloadEncode
  rw [List.append_assoc, dropLit_append]
  simp only [Option.some_bind,
    show ("\"\x7d".toList : List Char) = '"' :: ['\x7d'] from rfl,
    parseJsonString_escape]
  rfl

theorem splitLastDot_of_no_dot (l : List Char) (h : '.' ∉ l) :
    splitLastDot l = none := by
  induction l with
  | nil => rfl
  | cons c rest ih =>
    simp only [List.mem_cons, not_or] at h
    have hc : ¬c = '.' := fun hc => h.1 hc.symm
    simp [splitLastDot, ih h.2, hc]

theorem splitLastDot_append (p s : List Char) (h : '.' ∉ s) :
    splitLastDot (p ++ '.' :: s) = some (p, s) := by
  induction p with
  | nil => simp [splitLastDot, splitLastDot_of_no_dot s h]
  | cons c p ih => simp [splitLastDot, ih]

theorem make_token_toList (mac : List Char → String) (u : String) :
    (make_token mac u).toList =
      payloadEncode u ++ '.' :: (mac (payloadEncode u)).toList := by
  show (make_token mac u).data = _
  simp [make_token, String.data_append, String.toList]

/-! ### Claims about the token codec -/

/-- C2: round-trip of the Token Codec — decoding a token freshly issued for
any username `u` with the same process-wide secret yields exactly `u`.  The
hypothesis that the integrity tag contains no `'.'` holds for the
library's base64url-encoded tags. -/
theorem token_roundtrip (mac : List Char → String)
    (hmac : ∀ pl, '.' ∉ (mac pl).toList) (u : String) :
    parse_token mac (make_token mac u) = some u := by
  unfold parse_token
  rw [make_token_toList, splitLastDot_append _ _ (hmac _)]
  simp [payloadDecode_encode]

/-- Witness for C2 at a username containing a dot, a quote and a
backslash. -/
theorem token_roundtrip_witness :
    parse_token standMac (make_token standMac "a.l\"ice\\") =
      some "a.l\"ice\\" :=
  token_roundtrip standMac
    (by intro pl; show '.' ∉ ("SIG" : String).toList; decide) "a.l\"ice\\"

/-- C4: totality of token decoding — `parse_token` is a total function:
on every input string it returns either a username or the `InvalidToken`
outcome (`none`); the Python `except Exception: return None` leaves no
crash path, and the embedding is correspondingly total. -/
theorem parse_token_total (mac : List Char → String) (t : String) :
    parse_token mac t = none ∨ ∃ u, parse_token mac t = some u := by
  cases h : parse_token mac t
  · exact Or.inl rfl
  · exact Or.inr ⟨_, rfl⟩

/-! ### Case analysis of the handlers -/

/-- Complete case analysis of `register`: empty-field rejection,
duplicate rejection, or creation of the next record. -/
theorem register_cases (hash_pw : String → String) (p : RegisterPayload)
    (s : ServerState) :
    register hash_pw p s =
        (⟨400, [("error", "username and password required")]⟩, s) ∨
    register hash_pw p s =
        (⟨409, [("error", "username already exists")]⟩, s) ∨
    register hash_pw p s =
        (⟨201, publicOf ⟨toString s.next_id, pyStrip p.username,
            pyStrip p.name, pyStrip p.email, hash_pw p.password⟩⟩,
         ⟨(pyStrip p.username,
           ⟨toString s.next_id, pyStrip p.username, pyStrip p.name,
            pyStrip p.email, hash_pw p.password⟩) :: s.users,
          s.next_id + 1⟩) := by
  unfold register
  dsimp only
  split_ifs with h1 h2
  · exact Or.inl rfl
  · exact Or.inr (Or.inl rfl)
  · exact Or.inr (Or.inr rfl)

/-- Keys of the exposed public record, in order. -/
theorem publicOf_keys (u : UserRec) :
    (publicOf u).map Prod.fst = ["id", "username", "name", "email"] := rfl

/-- Complete case analysis of `profile`: a success exposing some stored
record, the uniform invalid-token failure, or the missing-scheme
failure. -/
theorem profile_cases (mac : List Char → String) (s : ServerState)
    (auth : String) :
    (∃ user, profile mac s auth = ⟨200, publicOf user⟩) ∨
    profile mac s auth = ⟨401, [("error", "invalid token")]⟩ ∨
    profile mac s auth = ⟨401, [("error", "missing bearer token")]⟩ := by
  unfold profile
  dsimp only
  split_ifs with hb
  · split
    · exact Or.inr (Or.inl rfl)
    · split_ifs with hu
      · exact Or.inr (Or.inl rfl)
      · split
        · exact Or.inr (Or.inl rfl)
        · exact Or.inl ⟨_, rfl⟩
  · exact Or.inr (Or.inr rfl)

/-! ### C1 — empty-credential rejection -/

/-- C1 counterexample: the password is used untrimmed (`app.py` line 37), so
a password consisting only of whitespace is NOT rejected: registering
`("alice", " ")` from the initial state succeeds with status 201 and
creates a record, where the claim demands an `InvalidInput` failure. -/
theorem register_whitespace_password_accepted :
    (register hashStandin ⟨"alice", " ", "Alice", "a@x.com"⟩
        initState).1.status = 201 ∧
    (register hashStandin ⟨"alice", " ", "Alice", "a@x.com"⟩
        initState).2 ≠ initState := by
  decide

/-- C1 amended: `register` fails with the `InvalidInput` response (status
400, state unchanged) exactly when the username is empty after trimming
whitespace or the password is the empty string; the password is used
untrimmed, so a whitespace-only password passes the check. -/
theorem register_invalid_input_iff (hash_pw : String → String)
    (p : RegisterPayload) (s : ServerState) :
    register hash_pw p s =
        (⟨400, [("error", "username and password required")]⟩, s) ↔
      (pyStrip p.username = "" ∨ p.password = "") := by
  unfold register
  dsimp only
  split_ifs with h1 h2
  · simp [h1]
  · simp [h1]
  · simp [h1]

/-! ### C9 — atomicity on failure -/

/-- C9: whenever `register` answers an error (`InvalidInput` 400 or
`DuplicateUsername` 409) the store and the id counter are exactly as
before the call, and `login` (which can only err with
`InvalidCredentials`) never changes the state at all. -/
theorem failed_request_preserves_state (hash_pw : String → String)
    (mac : List Char → String) (p : RegisterPayload) (q : LoginPayload)
    (s : ServerState) :
    ((register hash_pw p s).1.status = 400 ∨
        (register hash_pw p s).1.status = 409 →
      (register hash_pw p s).2 = s) ∧
    (step hash_pw mac s (Op.log q)).1 = s := by
  refine ⟨fun h => ?_, rfl⟩
  rcases register_cases hash_pw p s with hr | hr | hr <;> rw [hr] at h ⊢
  simp_all

/-- Witness for C9: a register call missing the username and a login for an
unknown user both leave the initial state intact. -/
theorem failed_request_preserves_state_witness :
    (register hashStandin ⟨"", "pw", "", ""⟩ initState).2 = initState ∧
    (step hashStandin standMac initState (Op.log ⟨"ghost", "x"⟩)).1 =
      initState := by
  have h := failed_request_preserves_state hashStandin standMac
    ⟨"", "pw", "", ""⟩ ⟨"ghost", "x"⟩ initState
  exact ⟨h.1 (by decide), h.2⟩

/-! ### C3 — enumeration resistance of login -/

/-- C3: a login naming an absent username and a login naming a registered
username with a wrong password produce literally the same response —
same error kind, same message — so the caller cannot enumerate
usernames. -/
theorem login_enumeration_resistance (hash_pw : String → String)
    (mac : List Char → String) (s : ServerState) (u1 p1 u2 p2 : String)
    (h1 : lookupU (pyStrip u1) s.users = none)
    (h2 : ∀ rec, lookupU (pyStrip u2) s.users = some rec →
      rec.password_hash ≠ hash_pw p2) :
    login hash_pw mac ⟨u1, p1⟩ s = login hash_pw mac ⟨u2, p2⟩ s ∧
    login hash_pw mac ⟨u1, p1⟩ s =
      ⟨401, [("error", "invalid credentials")]⟩ := by
  have e1 : login hash_pw mac ⟨u1, p1⟩ s =
      ⟨401, [("error", "invalid credentials")]⟩ := by
    simp [login, h1]
  have e2 : login hash_pw mac ⟨u2, p2⟩ s =
      ⟨401, [("error", "invalid credentials")]⟩ := by
    cases hl : lookupU (pyStrip u2) s.users with
    | none => simp [login, hl]
    | some rec => simp [login, hl, h2 rec hl]
  exact ⟨e1.trans e2.symm, e1⟩

/-- Store holding exactly the user "alice" with password "pw1", reached by
one successful registration. -/
def aliceState : ServerState :=
  (register hashStandin ⟨"alice", "pw1", "Alice", "a@x.com"⟩ initState).2

/-- Witness for C3: `("ghost", "x")` versus `("alice", "wrongpass")`
against the alice store. -/
theorem login_enumeration_resistance_witness :
    login hashStandin standMac ⟨"ghost", "x"⟩ aliceState =
        login hashStandin standMac ⟨"alice", "wrongpass"⟩ aliceState ∧
    login hashStandin standMac ⟨"ghost", "x"⟩ aliceState =
      ⟨401, [("error", "invalid credentials")]⟩ := by
  have h := login_enumeration_resistance hashStandin standMac aliceState
    "ghost" "x" "alice" "wrongpass" (by decide) ?_
  · exact h
  · intro rec hrec
    rw [show lookupU (pyStrip "alice") aliceState.users =
        some ⟨"1", "alice", "Alice", "a@x.com", "sha256:pw1"⟩ from rfl] at hrec
    injection hrec with hrec
    subst hrec
    decide

/-! ### C5 — the credential digest is never exposed -/

/-- C5: every successful response of `register` (201) and of `profile`
(200) carries all four public identity fields and no `password_hash`
field, for every store state and every input. -/
theorem digest_never_exposed (hash_pw : String → String)
    (mac : List Char → String) (p : RegisterPayload) (s : ServerState)
    (auth : String) :
    ((register hash_pw p s).1.status = 201 →
      "password_hash" ∉ (register hash_pw p s).1.body.map Prod.fst ∧
      ["id", "username", "name", "email"] ⊆
        (register hash_pw p s).1.body.map Prod.fst) ∧
    ((profile mac s auth).status = 200 →
      "password_hash" ∉ (profile mac s auth).body.map Prod.fst ∧
      ["id", "username", "name", "email"] ⊆
        (profile mac s auth).body.map Prod.fst) := by
  constructor
  · intro h
    rcases register_cases hash_pw p s with hr | hr | hr <;> rw [hr] at h ⊢
    · simp at h
    · simp at h
    · rw [publicOf_keys]
      exact ⟨by decide, List.Subset.refl _⟩
  · intro h
    rcases profile_cases mac s auth with ⟨user, hr⟩ | hr | hr <;> rw [hr] at h ⊢
    · rw [publicOf_keys]
      exact ⟨by decide, List.Subset.refl _⟩
    · simp at h
    · simp at h

/-- Witness for C5: the successful registration of alice and a profile
request with a valid token for alice expose no digest. -/
theorem digest_never_exposed_witness :
    "password_hash" ∉
      (register hashStandin ⟨"alice", "pw1", "Alice", "a@x.com"⟩
        initState).1.body.map Prod.fst ∧
    "password_hash" ∉
      (profile standMac aliceState
        "Bearer \x7b\"u\": \"alice\"\x7d.SIG").body.map Prod.fst := by
  have h1 := digest_never_exposed hashStandin standMac
    ⟨"alice", "pw1", "Alice", "a@x.com"⟩ initState "x"
  have h2 := digest_never_exposed hashStandin standMac
    ⟨"alice", "pw1", "Alice", "a@x.com"⟩ aliceState
    "Bearer \x7b\"u\": \"alice\"\x7d.SIG"
  exact ⟨(h1.1 (by decide)).1, (h2.2 (by decide)).1⟩

/-! ### C6 — orphaned token subjects merge into InvalidToken -/

/-- C6: when the Authorization header carries a token that decodes to a
username absent from the store, `profile` answers exactly the
invalid-token response — the very same response produced for a malformed
or tampered token, never a NotFound. -/
theorem profile_orphan_token (mac : List Char → String) (s : ServerState)
    (auth u : String) (hb : bearerOk auth = true)
    (ht : parse_token mac
      (String.mk (stripChars (afterFirstSpace auth.toList))) = some u)
    (hu : lookupU u s.users = none) :
    profile mac s auth = ⟨401, [("error", "invalid token")]⟩ ∧
    (∀ auth2, bearerOk auth2 = true →
      parse_token mac
        (String.mk (stripChars (afterFirstSpace auth2.toList))) = none →
      profile mac s auth2 = ⟨401, [("error", "invalid token")]⟩) := by
  have ht' : parse_token mac
      (String.mk (stripChars (afterFirstSpace auth.data))) = some u := ht
  constructor
  · by_cases hu0 : u = ""
    · simp [profile, hb, ht', hu0]
    · simp [profile, hb, ht', hu0, hu]
  · intro auth2 hb2 ht2
    have ht2' : parse_token mac
        (String.mk (stripChars (afterFirstSpace auth2.data))) = none := ht2
    simp [profile, hb2, ht2']

/-- Witness for C6: a correctly signed token for the unregistered subject
"ghost" and a garbage token produce the same response against the alice
store. -/
theorem profile_orphan_token_witness :
    profile standMac aliceState "Bearer \x7b\"u\": \"ghost\"\x7d.SIG" =
        ⟨401, [("error", "invalid token")]⟩ ∧
    profile standMac aliceState "Bearer garbage" =
      ⟨401, [("error", "invalid token")]⟩ := by
  have h := profile_orphan_token standMac aliceState
    "Bearer \x7b\"u\": \"ghost\"\x7d.SIG" "ghost"
    (by decide) (by decide) (by decide)
  exact ⟨h.1, h.2 "Bearer garbage" (by decide) (by decide)⟩

/-! ### C10 — username whitespace normalization -/

/-- Stripping absorbs any all-whitespace prefix. -/
theorem stripChars_ws_left (lead l : List Char)
    (h : ∀ c ∈ lead, pyIsSpace c = true) :
    stripChars (lead ++ l) = stripChars l := by
  induction lead with
  | nil => rfl
  | cons c t ih =>
    rw [List.cons_append,
      stripChars_cons_space _ _ (h c (List.mem_cons_self c t))]
    exact ih (fun d hd => h d (List.mem_cons_of_mem c hd))

/-- Stripping absorbs any all-whitespace suffix. -/
theorem stripChars_ws_right (trail : List Char) :
    ∀ l, (∀ c ∈ trail, pyIsSpace c = true) →
      stripChars (l ++ trail) = stripChars l := by
  induction trail with
  | nil => intro l _; simp
  | cons c t ih =>
    intro l h
    rw [show l ++ (c :: t) = (l ++ [c]) ++ t from by simp,
      ih (l ++ [c]) (fun d hd => h d (List.mem_cons_of_mem c hd)),
      stripChars_append_space l c (h c (List.mem_cons_self c t))]

/-- Python stripping is blind to any whitespace surround: padding a string
with arbitrary leading and trailing whitespace leaves its strip
unchanged. -/
theorem pyStrip_surround (w : String) (lead trail : List Char)
    (hl : ∀ c ∈ lead, pyIsSpace c = true)
    (ht : ∀ c ∈ trail, pyIsSpace c = true) :
    pyStrip (String.mk (lead ++ w.data ++ trail)) = pyStrip w := by
  unfold pyStrip
  congr 1
  rw [show (String.mk (lead ++ w.data ++ trail)).toList =
      lead ++ w.data ++ trail from rfl,
    List.append_assoc, stripChars_ws_left _ _ hl,
    stripChars_ws_right trail w.data ht]
  rfl

/-- C10: (i) a successful `register` stores the record under the trimmed
username (which is also the record's `username` field); (ii) `login`
strips surrounding whitespace from the submitted username before use —
padding any submitted username with any amount of leading and trailing
whitespace leaves the whole response unchanged; (iii) hence for every
registered user with the matching password, a login whose username is
that name surrounded by any extra leading/trailing whitespace succeeds
and is issued a token for the trimmed name. -/
theorem username_whitespace_normalized (hash_pw : String → String)
    (mac : List Char → String) (s : ServerState) :
    (∀ q s1, (register hash_pw q s1).1.status = 201 →
      ∃ urec, (register hash_pw q s1).2.users =
          (pyStrip q.username, urec) :: s1.users ∧
        urec.username = pyStrip q.username) ∧
    (∀ (w pw2 : String) (lead trail : List Char),
      (∀ c ∈ lead, pyIsSpace c = true) →
      (∀ c ∈ trail, pyIsSpace c = true) →
      login hash_pw mac ⟨String.mk (lead ++ w.data ++ trail), pw2⟩ s =
        login hash_pw mac ⟨w, pw2⟩ s) ∧
    (∀ (u pw : String) (rec : UserRec) (lead trail : List Char),
      (∀ c ∈ lead, pyIsSpace c = true) →
      (∀ c ∈ trail, pyIsSpace c = true) →
      pyStrip u = u → lookupU u s.users = some rec →
      rec.password_hash = hash_pw pw →
      login hash_pw mac ⟨String.mk (lead ++ u.data ++ trail), pw⟩ s =
        ⟨200, [("token", make_token mac u)]⟩) := by
  have key : ∀ (w pw2 : String) (lead trail : List Char),
      (∀ c ∈ lead, pyIsSpace c = true) →
      (∀ c ∈ trail, pyIsSpace c = true) →
      login hash_pw mac ⟨String.mk (lead ++ w.data ++ trail), pw2⟩ s =
        login hash_pw mac ⟨w, pw2⟩ s := by
    intro w pw2 lead trail hl ht
    have hp := pyStrip_surround w lead trail hl ht
    simp only [login, hp]
  refine ⟨?_, key, ?_⟩
  · intro q s1 hq
    rcases register_cases hash_pw q s1 with hr | hr | hr <;> rw [hr] at hq ⊢
    · simp at hq
    · simp at hq
    · exact ⟨_, rfl, rfl⟩
  · intro u pw rec lead trail hl ht hstrip hlook hpw
    rw [key u pw lead trail hl ht]
    simp [login, hstrip, hlook, hpw]

/-- Witness for C10: logging in as " alice  " (one leading, two trailing
spaces) with alice's password against the alice store succeeds with a
token for "alice". -/
theorem username_whitespace_normalized_witness :
    login hashStandin standMac ⟨" alice  ", "pw1"⟩ aliceState =
      ⟨200, [("token", make_token standMac "alice")]⟩ := by
  have h := username_whitespace_normalized hashStandin standMac aliceState
  exact h.2.2 "alice" "pw1" ⟨"1", "alice", "Alice", "a@x.com", "sha256:pw1"⟩
    [' '] [' ', ' '] (by decide) (by decide) (by decide) (by decide) (by decide)

/-! ### C7 — sequential monotone id assignment -/

/-- Ids of the stored records, newest first. -/
def idsOf (s : ServerState) : List String :=
  s.users.map (fun kv => kv.2.id)

/-- Id discipline: `NEXT_ID` is one more than the record count and the
stored ids are exactly the decimal strings "1".."k", newest first — each
id was assigned once, in increasing order, and never reused. -/
def IdInv (s : ServerState) : Prop :=
  s.next_id = s.users.length + 1 ∧
  idsOf s = (List.range s.users.length).reverse.map (fun k => toString (k + 1))

theorem IdInv_init : IdInv initState := by
  constructor <;> simp [initState, idsOf]

theorem countCreated_cons (r : Response) (rs : List Response) :
    countCreated (r :: rs) =
      countCreated rs + (if r.status = 201 then 1 else 0) := by
  simp only [countCreated, List.filter_cons]
  split_ifs with h <;> simp_all

theorem login_status_ne_201 (hash_pw : String → String)
    (mac : List Char → String) (p : LoginPayload) (s : ServerState) :
    (login hash_pw mac p s).status ≠ 201 := by
  unfold login
  dsimp only
  cases hl : lookupU (pyStrip p.username) s.users with
  | none => simp [hl]
  | some user =>
    simp only [hl]
    split_ifs <;> simp

theorem profile_status_ne_201 (mac : List Char → String) (s : ServerState)
    (auth : String) : (profile mac s auth).status ≠ 201 := by
  rcases profile_cases mac s auth with ⟨user, h⟩ | h | h <;> rw [h] <;> simp

theorem step_length (hash_pw : String → String) (mac : List Char → String)
    (s : ServerState) (op : Op) :
    (step hash_pw mac s op).1.users.length =
      s.users.length +
        (if (step hash_pw mac s op).2.status = 201 then 1 else 0) := by
  cases op with
  | reg p =>
    rcases register_cases hash_pw p s with hr | hr | hr <;> simp [step, hr]
  | log p => simp [step, login_status_ne_201]
  | prof a => simp [step, profile_status_ne_201]

theorem step_suffix (hash_pw : String → String) (mac : List Char → String)
    (s : ServerState) (op : Op) :
    s.users.IsSuffix (step hash_pw mac s op).1.users := by
  cases op with
  | reg p =>
    rcases register_cases hash_pw p s with hr | hr | hr <;>
      simp [step, hr, List.suffix_cons]
  | log p => exact List.suffix_refl _
  | prof a => exact List.suffix_refl _

theorem step_IdInv (hash_pw : String → String) (mac : List Char → String)
    (s : ServerState) (op : Op) (h : IdInv s) :
    IdInv (step hash_pw mac s op).1 := by
  cases op with
  | log p => exact h
  | prof a => exact h
  | reg p =>
    obtain ⟨h1, h2⟩ := h
    rcases register_cases hash_pw p s with hr | hr | hr
    · have hs : (step hash_pw mac s (Op.reg p)).1 = s := by simp [step, hr]
      rw [hs]
      exact ⟨h1, h2⟩
    · have hs : (step hash_pw mac s (Op.reg p)).1 = s := by simp [step, hr]
      rw [hs]
      exact ⟨h1, h2⟩
    · constructor
      · simp only [step, hr]
        simp only [List.length_cons]
        omega
      · simp only [idsOf] at h2
        simp only [step, hr, idsOf, List.map_cons, List.length_cons,
          List.range_succ, List.reverse_append]
        simp [h1, h2]

theorem runFrom_IdInv (hash_pw : String → String) (mac : List Char → String)
    (ops : List Op) (s : ServerState) (h : IdInv s) :
    IdInv (runFrom hash_pw mac s ops).1 := by
  induction ops generalizing s with
  | nil => exact h
  | cons op ops ih => exact ih _ (step_IdInv hash_pw mac s op h)

theorem runFrom_length (hash_pw : String → String) (mac : List Char → String)
    (ops : List Op) (s : ServerState) :
    (runFrom hash_pw mac s ops).1.users.length =
      s.users.length + countCreated (runFrom hash_pw mac s ops).2 := by
  induction ops generalizing s with
  | nil => simp [runFrom, countCreated]
  | cons op ops ih =>
    show (runFrom hash_pw mac (step hash_pw mac s op).1 ops).1.users.length =
      s.users.length +
        countCreated ((step hash_pw mac s op).2 ::
          (runFrom hash_pw mac (step hash_pw mac s op).1 ops).2)
    rw [ih, countCreated_cons, step_length]
    omega

/-- C7: along every trace of requests from process start, the id
discipline holds (`NEXT_ID` = record count + 1 and the stored ids are
exactly "1".."k", newest first, so ids are assigned once, increasing, and
never reused), the record count equals the number of successful creates,
the next successful create returns a record whose id is the decimal
string of (successes so far + 1), and no request ever removes a record
(the store before any step is a suffix of the store after it). -/
theorem ids_sequential (hash_pw : String → String) (mac : List Char → String)
    (ops : List Op) :
    IdInv (run hash_pw mac ops).1 ∧
    (run hash_pw mac ops).1.users.length =
      countCreated (run hash_pw mac ops).2 ∧
    (∀ p, (register hash_pw p (run hash_pw mac ops).1).1.status = 201 →
      ("id", toString (countCreated (run hash_pw mac ops).2 + 1)) ∈
        (register hash_pw p (run hash_pw mac ops).1).1.body) ∧
    ∀ op, (run hash_pw mac ops).1.users.IsSuffix
      (step hash_pw mac (run hash_pw mac ops).1 op).1.users := by
  have hinv : IdInv (run hash_pw mac ops).1 :=
    runFrom_IdInv hash_pw mac ops initState IdInv_init
  have hlen : (run hash_pw mac ops).1.users.length =
      countCreated (run hash_pw mac ops).2 := by
    have hr := runFrom_length hash_pw mac ops initState
    simpa [run, initState] using hr
  refine ⟨hinv, hlen, ?_, fun op => step_suffix hash_pw mac _ op⟩
  intro p hp
  have hid : (run hash_pw mac ops).1.next_id =
      countCreated (run hash_pw mac ops).2 + 1 := by
    rw [hinv.1, hlen]
  rcases register_cases hash_pw p (run hash_pw mac ops).1 with hr | hr | hr <;>
    rw [hr] at hp ⊢
  · simp at hp
  · simp at hp
  · simp [publicOf, userItems, hid]

/-- Witness for C7: after one successful registration (alice), the next
successful create (bob) is answered with id "2". -/
theorem ids_sequential_witness :
    ("id", "2") ∈
      (register hashStandin ⟨"bob", "pw2", "Bob", "b@x.com"⟩
        (run hashStandin standMac
          [Op.reg ⟨"alice", "pw1", "Alice", "a@x.com"⟩]).1).1.body := by
  have h := ids_sequential hashStandin standMac
    [Op.reg ⟨"alice", "pw1", "Alice", "a@x.com"⟩]
  exact h.2.2.1 ⟨"bob", "pw2", "Bob", "b@x.com"⟩ (by decide)

end UserService
